import Mathlib

/-!
Shallow embedding of the `@microstack-dev/workflow` engine
(`src/core/Engine.ts`, `src/core/Context.ts`, `src/core/types.ts`,
`src/errors/StepError.ts`, `src/errors/TimeoutError.ts`,
`src/errors/WorkflowError.ts`, `src/errors/StepExecutionError.ts`,
`src/core/Workflow.ts`).

JavaScript promises are embedded as pure functions: a step body is a
function from the attempt number (modelling the stateful closure across
retry attempts) and the context to an outcome, which is either a settled
success (with the possibly mutated context), a settled rejection (with the
thrown value and the possibly mutated context), or `hang`, meaning the
body does not settle before a configured timeout timer fires (and never
settles when no timeout is configured).  Wall-clock timestamps carried by
events are not modelled; every other field of every emitted event is.
-/

/-- Values stored in the workflow context (`Record<string, unknown>`). -/
inductive Value where
  | str (s : String)
  | num (n : Int)
  | bool (b : Bool)
  | null
deriving DecidableEq, Repr

/-- JavaScript errors and thrown values, tagged by their class.
`error` is a plain `new Error(message)`; `stepError` is the class of
`src/errors/StepError.ts` (extends `Error`); `stepExecutionError` is the
class of `src/errors/StepExecutionError.ts` (extends `WorkflowError`);
`timeoutError` is `src/errors/TimeoutError.ts`; `workflowError` is
`src/errors/WorkflowError.ts`; `jsValue` is a thrown non-`Error` value,
carrying its `String(value)` rendering. -/
inductive JsError where
  | error (message : String) (cause : Option JsError)
  | stepError (stepId workflowName message : String) (cause : Option JsError)
  | stepExecutionError (stepId workflowName message : String) (cause : Option JsError)
  | timeoutError (stepId workflowName : String) (timeout : Nat)
  | workflowError (workflowName message : String) (cause : Option JsError)
  | jsValue (rendering : String)

/-- `e instanceof Error`: every modelled class except a thrown non-Error
value is an `Error` instance. -/
def JsError.isErrorInstance : JsError → Bool
  | .jsValue _ => false
  | _ => true

/-- `error instanceof Error ? error.message : String(error)`: the
`message` property for `Error` instances (the `TimeoutError` constructor
sets it from the step id and timeout), the string rendering otherwise. -/
def JsError.messageString : JsError → String
  | .error m _ => m
  | .stepError _ _ m _ => m
  | .stepExecutionError _ _ m _ => m
  | .timeoutError sid _ t => "Step " ++ sid ++ " timed out after " ++ toString t ++ "ms"
  | .workflowError _ m _ => m
  | .jsValue s => s

/-- `error instanceof Error ? error : undefined` (the `cause` argument of
the wrapping `StepError` constructed at `Engine.ts:88`). -/
def JsError.causeForWrap (e : JsError) : Option JsError :=
  if e.isErrorInstance then some e else none

/-- `error instanceof TimeoutError` (`Engine.ts:107`). -/
def JsError.isTimeoutInstance : JsError → Bool
  | .timeoutError .. => true
  | _ => false

/-- `error instanceof StepError` (`Engine.ts:84`).  `StepExecutionError`
extends `WorkflowError`, not `StepError`, so it is not an instance. -/
def JsError.isStepErrorInstance : JsError → Bool
  | .stepError .. => true
  | _ => false

/-- `error instanceof Error ? error : new Error(String(error))` — the
normalisation applied to the `error` field of `step:fail` and
`workflow:fail` events (`Engine.ts:40,81`). -/
def normalizeToError (e : JsError) : JsError :=
  if e.isErrorInstance then e else .error e.messageString none

/-- The catch-block classification of `Engine.ts:84-88`: a `StepError` or
`TimeoutError` is re-thrown unchanged; anything else is wrapped in a new
`StepError` carrying the step id, workflow name, original message and
(`Error`-instance) cause. -/
def wrapIfUntyped (stepId workflowName : String) (e : JsError) : JsError :=
  if e.isStepErrorInstance || e.isTimeoutInstance then e
  else .stepError stepId workflowName e.messageString e.causeForWrap

/-- Association-list update with JavaScript object-assignment semantics
(`this.data[key] = value`): replace the binding if present, else append. -/
def setEntry : List (String × Value) → String → Value → List (String × Value)
  | [], k, v => [(k, v)]
  | (k', v') :: rest, k, v =>
      if k' = k then (k, v) :: rest else (k', v') :: setEntry rest k v

/-- Association-list lookup (`this.data[key]`, `undefined` ↦ `none`). -/
def lookupEntry : List (String × Value) → String → Option Value
  | [], _ => none
  | (k', v') :: rest, k => if k' = k then some v' else lookupEntry rest k

/-- `WorkflowContext` (`src/core/Context.ts`): the mutable key/value data
record and the environment snapshot. -/
structure WorkflowContext where
  data : List (String × Value)
  env : List (String × String)
deriving DecidableEq, Repr

/-- `new WorkflowContext(initialData)` as called by `Engine.run`
(`Engine.ts:17`): `data = {...initialData}`, `env = {...process.env}`. -/
def mkWorkflowContext (initialData : List (String × Value))
    (procEnv : List (String × String)) : WorkflowContext :=
  { data := initialData, env := procEnv }

/-- `Context.ts get`: `this.data[key]`, returning the stored value or the
absent marker; indexing never throws. -/
def WorkflowContext.get (ctx : WorkflowContext) (key : String) : Option Value :=
  lookupEntry ctx.data key

/-- `Context.ts set`: throws `Error('Context key must be a non-empty
string')` before touching the data when the key is empty, otherwise
assigns.  The pair returns the thrown/ok outcome together with the
context after the call. -/
def WorkflowContext.set (ctx : WorkflowContext) (key : String) (v : Value) :
    Except JsError Unit × WorkflowContext :=
  if key = "" then
    (.error (.error "Context key must be a non-empty string" none), ctx)
  else
    (.ok (), { ctx with data := setEntry ctx.data key v })

/-- `Context.ts has`: `key in this.data`. -/
def WorkflowContext.hasKey (ctx : WorkflowContext) (key : String) : Bool :=
  (lookupEntry ctx.data key).isSome

/-- Outcome of one invocation of a step body (`step.run(context)`): a
settled fulfilment, a settled rejection, or `hang` — the body does not
settle before the timeout timer (nor ever, when no timer is racing). -/
inductive BodyOutcome where
  | ok (ctx : WorkflowContext)
  | err (e : JsError) (ctx : WorkflowContext)
  | hang

/-- A `Step` (`src/core/types.ts`).  The body receives the attempt number
as well, modelling closures whose behaviour differs across retry
attempts; a condition evaluates to a boolean or throws. -/
structure Step where
  id : String
  run : Nat → WorkflowContext → BodyOutcome
  condition : Option (WorkflowContext → Except JsError Bool) := none
  retry : Option Nat := none
  timeout : Option Nat := none

/-- A `Workflow` (`src/core/Workflow.ts`): a name and an ordered step
list. -/
structure Workflow where
  name : String
  steps : List Step

/-- The lifecycle events emitted by the engine, with every field the
source emits at the corresponding `emit` site except the wall-clock
`timestamp`.  Note that the `step:success` emission at `Engine.ts:69-74`
carries no duration field. -/
inductive Event where
  | workflowStart (workflowName : String)
  | workflowSuccess (workflowName : String)
  | workflowFail (workflowName : String) (error : JsError)
  | stepStart (workflowName stepId : String)
  | stepSuccess (workflowName stepId : String)
  | stepFail (workflowName stepId : String) (error : JsError)
  | stepSkip (workflowName stepId : String)

/-- Field names of the object literal emitted for `step:success` at
`Engine.ts:69-74`. -/
def stepSuccessEmittedFields : List String :=
  ["type", "workflowName", "stepId", "timestamp"]

/-- Field names required of a `StepSuccessEvent` by its declaration in
`src/core/types.ts` (duration is a required, non-optional property). -/
def stepSuccessDeclaredFields : List String :=
  ["type", "workflowName", "stepId", "timestamp", "duration"]

/-- `executeWithTimeout` (`Engine.ts:122-138`): race the body against a
timer; if the body settles first its settlement is forwarded, and if the
timer fires first the attempt rejects with a `TimeoutError` carrying the
step id, workflow name and configured timeout. -/
def executeWithTimeout (step : Step) (ctx : WorkflowContext) (timeoutMs : Nat)
    (workflowName : String) (attempt : Nat) : BodyOutcome :=
  match step.run attempt ctx with
  | .ok c => .ok c
  | .err e c => .err e c
  | .hang => .err (.timeoutError step.id workflowName timeoutMs) ctx

/-- The backoff delay awaited at `Engine.ts:115` before the next attempt:
`1000 * (attempt + 1)` milliseconds. -/
def backoffDelay (attempt : Nat) : Nat :=
  1000 * (attempt + 1)

/-- Result of the attempt loop, instrumented with the number of body
attempts made and the list of backoff delays awaited (in order). -/
inductive RetryResult where
  | ok (ctx : WorkflowContext) (attempts : Nat) (delays : List Nat)
  | err (e : JsError) (attempts : Nat) (delays : List Nat)
  | hang (attempts : Nat) (delays : List Nat)

/-- Record one awaited backoff delay in front of a loop result. -/
def RetryResult.consDelay (d : Nat) : RetryResult → RetryResult
  | .ok c a ds => .ok c a (d :: ds)
  | .err e a ds => .err e a (d :: ds)
  | .hang a ds => .hang a (d :: ds)

/-- One iteration body of the attempt loop (`Engine.ts:97-103`): run the
step body under a timeout race when one is configured, else bare. -/
def runAttempt (step : Step) (workflowName : String) (attempt : Nat)
    (ctx : WorkflowContext) : BodyOutcome :=
  match step.timeout with
  | some t => executeWithTimeout step ctx t workflowName attempt
  | none => step.run attempt ctx

/-- The `for (let attempt = 0; attempt <= maxRetries; attempt++)` loop of
`executeStepWithRetry` (`Engine.ts:96-119`).  `fuel` equals
`maxRetries - attempt` and makes the loop structurally recursive; the
fuel-zero fallback is unreachable because the loop breaks when
`attempt = maxRetries`.  A fulfilled attempt returns; a rejection is
re-thrown at once if it is a `TimeoutError`, is final on the last
permitted attempt, and otherwise the loop awaits `backoffDelay attempt`
and retries. -/
def retryGo (step : Step) (workflowName : String) (maxRetries : Nat) :
    WorkflowContext → Nat → Nat → RetryResult
  | ctx, attempt, fuel =>
    match runAttempt step workflowName attempt ctx with
    | .ok c => .ok c (attempt + 1) []
    | .hang => .hang (attempt + 1) []
    | .err e c =>
      if e.isTimeoutInstance then .err e (attempt + 1) []
      else if attempt = maxRetries then .err e (attempt + 1) []
      else
        match fuel with
        | 0 => .err e (attempt + 1) []
        | fuel' + 1 =>
          (retryGo step workflowName maxRetries c (attempt + 1) fuel').consDelay
            (backoffDelay attempt)

/-- `executeStepWithRetry` (`Engine.ts:92-120`): `maxRetries` defaults to
`0` via `step.retry ?? 0`; the loop starts at attempt `0`. -/
def executeStepWithRetry (step : Step) (workflowName : String)
    (ctx : WorkflowContext) : RetryResult :=
  let maxRetries := step.retry.getD 0
  retryGo step workflowName maxRetries ctx 0 maxRetries

/-- Outcome of one step lifecycle as seen by `run`: normal return with
the context after the step, a thrown error, or a never-settling await. -/
inductive StepOutcome where
  | ok (ctx : WorkflowContext)
  | err (e : JsError)
  | hang

/-- `executeStep` (`Engine.ts:46-90`): evaluate the condition (defaulting
to true); on a falsy result emit `step:skip` and return; otherwise emit
`step:start`, run the attempt loop, and emit `step:success` on
fulfilment.  Any error thrown inside the try block — by the condition or
by the attempt loop — reaches the catch block, which emits `step:fail`
with the normalised original error and re-throws it classified by
`wrapIfUntyped`.  The returned list is the sequence of events emitted. -/
def executeStep (step : Step) (workflowName : String) (ctx : WorkflowContext) :
    List Event × StepOutcome :=
  match (match step.condition with | some c => c ctx | none => .ok true) with
  | .error e =>
      ([.stepFail workflowName step.id (normalizeToError e)],
       .err (wrapIfUntyped step.id workflowName e))
  | .ok shouldRun =>
    if shouldRun = false then
      ([.stepSkip workflowName step.id], .ok ctx)
    else
      match executeStepWithRetry step workflowName ctx with
      | .ok c _ _ =>
          ([.stepStart workflowName step.id, .stepSuccess workflowName step.id],
           .ok c)
      | .err e _ _ =>
          ([.stepStart workflowName step.id,
            .stepFail workflowName step.id (normalizeToError e)],
           .err (wrapIfUntyped step.id workflowName e))
      | .hang _ _ =>
          ([.stepStart workflowName step.id], .hang)

/-- The `for (const step of workflow.steps)` loop of `run`
(`Engine.ts:26-28`): steps run strictly in order, each starting only
after the previous settled; a thrown error stops the iteration. -/
def runSteps (workflowName : String) : List Step → WorkflowContext →
    List Event × StepOutcome
  | [], ctx => ([], .ok ctx)
  | s :: rest, ctx =>
    match executeStep s workflowName ctx with
    | (evs, .ok c) =>
        let (evs', out) := runSteps workflowName rest c
        (evs ++ evs', out)
    | (evs, .err e) => (evs, .err e)
    | (evs, .hang) => (evs, .hang)

/-- Result of `WorkflowEngine.run`: fulfilment with no value, rejection
with the propagated error, or divergence (a step hung with no timeout). -/
inductive RunResult where
  | success
  | failure (e : JsError)
  | diverged

/-- `WorkflowEngine.run` (`Engine.ts:16-44`): build a fresh context, emit
`workflow:start`, run the steps, then emit `workflow:success`; the catch
block emits `workflow:fail` with the normalised error and re-throws the
same error to the caller. -/
def WorkflowEngine.run (w : Workflow) (initialData : List (String × Value))
    (procEnv : List (String × String)) : List Event × RunResult :=
  match runSteps w.name w.steps (mkWorkflowContext initialData procEnv) with
  | (evs, .ok _) =>
      (Event.workflowStart w.name :: evs ++ [Event.workflowSuccess w.name],
       .success)
  | (evs, .err e) =>
      (Event.workflowStart w.name :: evs
        ++ [Event.workflowFail w.name (normalizeToError e)],
       .failure e)
  | (evs, .hang) =>
      (Event.workflowStart w.name :: evs, .diverged)

/-! ## Helper observations on loop results -/

/-- The delays awaited by an attempt-loop result. -/
def RetryResult.waited : RetryResult → List Nat
  | .ok _ _ ds => ds
  | .err _ _ ds => ds
  | .hang _ ds => ds

/-- Whether a run result is a rejection with a `StepExecutionError`
(the class of `src/errors/StepExecutionError.ts`). -/
def RunResult.isStepExecutionErrorFailure : RunResult → Bool
  | .failure (.stepExecutionError ..) => true
  | _ => false

/-! ## Concrete steps and workflows used as evaluation inputs -/

/-- A step whose body always throws a plain `new Error('boom')`. -/
def rawFailStep : Step :=
  { id := "s1", run := fun _ c => .err (.error "boom" none) c }

/-- A step whose body throws an actual `StepExecutionError` instance. -/
def typedFailStep : Step :=
  { id := "s2",
    run := fun _ c => .err (.stepExecutionError "s2" "wf-c1" "inner" none) c }

/-- A step with retry limit 1 whose body always throws. -/
def alwaysFailRetryStep : Step :=
  { id := "a",
    run := fun _ c => .err (.error "Permanent failure" none) c,
    retry := some 1 }

/-! ## C1 -/

/-- Claim C1: false of the code as stated.  For a step whose attempt loop
ends in a plain `Error`, `run` rejects with the legacy `StepError` class
(`src/errors/StepError.ts`), not with `StepExecutionError`; and a body
that throws an actual `StepExecutionError` instance is re-wrapped in a
`StepError` rather than re-thrown unchanged, because the classification
at `Engine.ts:84` tests `instanceof StepError`, which `StepExecutionError`
(a `WorkflowError` subclass) does not satisfy.  The repository's own
error documentation deprecates `StepError` in favour of
`StepExecutionError`, so this is a divergence of the code from its
documentation. -/
theorem c1_engine_uses_legacy_step_error :
    (WorkflowEngine.run ⟨"wf-c1", [rawFailStep]⟩ [] []).2 =
      .failure (.stepError "s1" "wf-c1" "boom" (some (.error "boom" none)))
    ∧ ((WorkflowEngine.run ⟨"wf-c1", [rawFailStep]⟩ [] []).2).isStepExecutionErrorFailure
        = false
    ∧ (WorkflowEngine.run ⟨"wf-c1", [typedFailStep]⟩ [] []).2 =
      .failure (.stepError "s2" "wf-c1" "inner"
        (some (.stepExecutionError "s2" "wf-c1" "inner" none))) :=
  ⟨rfl, rfl, rfl⟩

/-! ## C3 -/

/-- Claim C3: the emission of `step:success` at `Engine.ts:69-74` carries
no `duration` field and no attempt start time is recorded anywhere in
`executeStep`, although the event declaration in `src/core/types.ts`
makes `duration` a required field of `StepSuccessEvent` (and the
repository's event documentation and the spec require
`duration = now - start`). -/
theorem c3_step_success_missing_duration :
    stepSuccessEmittedFields ≠ stepSuccessDeclaredFields
    ∧ "duration" ∉ stepSuccessEmittedFields
    ∧ "duration" ∈ stepSuccessDeclaredFields := by
  refine ⟨by decide, by decide, by decide⟩

/-! ## C2 -/

/-- Claim C2, counterexample to the error class: a step with retry limit
1 whose body always throws a plain error makes exactly 2 attempts (as
the claim states) but the error then raised out of `run` is the legacy
`StepError`, not a `StepExecutionError`. -/
theorem c2_counterexample :
    executeStepWithRetry alwaysFailRetryStep "wf" ⟨[], []⟩ =
      .err (.error "Permanent failure" none) 2 [1000]
    ∧ (WorkflowEngine.run ⟨"wf", [alwaysFailRetryStep]⟩ [] []).2 =
      .failure (.stepError "a" "wf" "Permanent failure"
        (some (.error "Permanent failure" none)))
    ∧ ((WorkflowEngine.run ⟨"wf", [alwaysFailRetryStep]⟩ [] []).2).isStepExecutionErrorFailure
        = false :=
  ⟨rfl, rfl, rfl⟩

/-! ## Attempt-loop lemmas -/

/-- A settled body rejection passes through the (possible) timeout race. -/
lemma runAttempt_of_run_err (step : Step) (wf : String) (attempt : Nat)
    (ctx c' : WorkflowContext) (e : JsError)
    (hrun : step.run attempt ctx = .err e c') :
    runAttempt step wf attempt ctx = .err e c' := by
  unfold runAttempt executeWithTimeout
  cases htm : step.timeout with
  | none => simpa using hrun
  | some t => simp [hrun]

/-- A settled body fulfilment passes through the (possible) timeout race. -/
lemma runAttempt_of_run_ok (step : Step) (wf : String) (attempt : Nat)
    (ctx c' : WorkflowContext)
    (hrun : step.run attempt ctx = .ok c') :
    runAttempt step wf attempt ctx = .ok c' := by
  unfold runAttempt executeWithTimeout
  cases htm : step.timeout with
  | none => simpa using hrun
  | some t => simp [hrun]

/-- If every attempt of the body rejects with a non-timeout error, the
loop started at `attempt` with `fuel = maxR - attempt` ends after attempt
number `maxR` with the last error, having made `maxR + 1` attempts in
total. -/
lemma retryGo_always_err (step : Step) (wf : String) (maxR : Nat)
    (hfail : ∀ n c, ∃ e c', step.run n c = .err e c' ∧ e.isTimeoutInstance = false) :
    ∀ fuel attempt ctx, attempt + fuel = maxR →
      ∃ e ds, retryGo step wf maxR ctx attempt fuel = .err e (maxR + 1) ds ∧
        e.isTimeoutInstance = false := by
  intro fuel
  induction fuel with
  | zero =>
    intro attempt ctx hat
    obtain ⟨e, c', hrun, hnt⟩ := hfail attempt ctx
    have hA := runAttempt_of_run_err step wf attempt ctx c' e hrun
    have hattempt : attempt = maxR := by omega
    refine ⟨e, [], ?_, hnt⟩
    unfold retryGo
    rw [hA]
    simp [hnt, hattempt]
  | succ f ih =>
    intro attempt ctx hat
    obtain ⟨e, c', hrun, hnt⟩ := hfail attempt ctx
    have hA := runAttempt_of_run_err step wf attempt ctx c' e hrun
    have hne : ¬ (attempt = maxR) := by omega
    obtain ⟨e', ds, hrec, hnt'⟩ := ih (attempt + 1) c' (by omega)
    refine ⟨e', backoffDelay attempt :: ds, ?_, hnt'⟩
    unfold retryGo
    rw [hA]
    simp only [hnt, hne, if_false, Bool.false_eq_true]
    rw [hrec]
    rfl

/-- If the body rejects with a non-timeout error on every attempt before
`maxR` and fulfils on attempt `maxR`, the loop fulfils with `maxR + 1`
attempts in total. -/
lemma retryGo_eventually_ok (step : Step) (wf : String) (maxR : Nat)
    (hfail : ∀ n c, n < maxR → ∃ e c', step.run n c = .err e c' ∧ e.isTimeoutInstance = false)
    (hok : ∀ c, ∃ c', step.run maxR c = .ok c') :
    ∀ fuel attempt ctx, attempt + fuel = maxR →
      ∃ ctx' ds, retryGo step wf maxR ctx attempt fuel = .ok ctx' (maxR + 1) ds := by
  intro fuel
  induction fuel with
  | zero =>
    intro attempt ctx hat
    have hattempt : attempt = maxR := by omega
    subst hattempt
    obtain ⟨c', hrun⟩ := hok ctx
    have hA := runAttempt_of_run_ok step wf attempt ctx c' hrun
    refine ⟨c', [], ?_⟩
    unfold retryGo
    rw [hA]
  | succ f ih =>
    intro attempt ctx hat
    obtain ⟨e, c', hrun, hnt⟩ := hfail attempt ctx (by omega)
    have hA := runAttempt_of_run_err step wf attempt ctx c' e hrun
    have hne : ¬ (attempt = maxR) := by omega
    obtain ⟨ctx', ds, hrec⟩ := ih (attempt + 1) c' (by omega)
    refine ⟨ctx', backoffDelay attempt :: ds, ?_⟩
    unfold retryGo
    rw [hA]
    simp only [hnt, hne, if_false, Bool.false_eq_true]
    rw [hrec]
    rfl

/-- A step with retry limit 2 that fails on attempts 0 and 1 and
fulfils on attempt 2. -/
def flakyStep : Step :=
  { id := "f",
    run := fun n c => if n < 2 then .err (.error "Temporary failure" none) c else .ok c,
    retry := some 2 }

/-- Claim C2 (amended: the error raised after exhaustion is the legacy
`StepError` class, which the spec names `StepExecutionError`): a step
with retry limit `k` whose body rejects with a non-timeout error on every
attempt makes exactly `k + 1` attempts and propagates a `StepError`; one
that fails on attempts `0..k-1` and fulfils on attempt `k` completes
successfully after exactly `k + 1` attempts with no error raised. -/
theorem c2_retry_attempts (step : Step) (wf : String) (ctx : WorkflowContext) (k : Nat)
    (hk : step.retry = some k) (hcond : step.condition = none) :
    ((∀ n c, ∃ e c', step.run n c = .err e c' ∧ e.isTimeoutInstance = false) →
      ∃ e ds, executeStepWithRetry step wf ctx = .err e (k + 1) ds ∧
        (executeStep step wf ctx).2 = .err (wrapIfUntyped step.id wf e) ∧
        (wrapIfUntyped step.id wf e).isStepErrorInstance = true)
    ∧ ((∀ n c, n < k → ∃ e c', step.run n c = .err e c' ∧ e.isTimeoutInstance = false) →
       (∀ c, ∃ c', step.run k c = .ok c') →
       ∃ ctx' ds, executeStepWithRetry step wf ctx = .ok ctx' (k + 1) ds ∧
         (executeStep step wf ctx).2 = .ok ctx') := by
  constructor
  · intro hfail
    obtain ⟨e, ds, hloop, hnt⟩ := retryGo_always_err step wf k hfail k 0 ctx (by omega)
    have hE : executeStepWithRetry step wf ctx = .err e (k + 1) ds := by
      unfold executeStepWithRetry
      rw [hk]
      simpa using hloop
    refine ⟨e, ds, hE, ?_, ?_⟩
    · unfold executeStep
      simp [hcond, hE]
    · cases e <;> simp_all [wrapIfUntyped, JsError.isStepErrorInstance,
        JsError.isTimeoutInstance]
  · intro hfail hok
    obtain ⟨ctx', ds, hloop⟩ := retryGo_eventually_ok step wf k hfail hok k 0 ctx (by omega)
    have hE : executeStepWithRetry step wf ctx = .ok ctx' (k + 1) ds := by
      unfold executeStepWithRetry
      rw [hk]
      simpa using hloop
    refine ⟨ctx', ds, hE, ?_⟩
    unfold executeStep
    simp [hcond, hE]

/-- Witness for C2 at concrete inputs: the always-failing retry-1 step
makes 2 attempts and propagates a `StepError`; the retry-2 step that
fails twice then succeeds completes after 3 attempts. -/
theorem c2_retry_attempts_witness :
    (∃ e ds, executeStepWithRetry alwaysFailRetryStep "wf" ⟨[], []⟩ = .err e 2 ds ∧
        (executeStep alwaysFailRetryStep "wf" ⟨[], []⟩).2 =
          .err (wrapIfUntyped "a" "wf" e) ∧
        (wrapIfUntyped "a" "wf" e).isStepErrorInstance = true)
    ∧ (∃ ctx' ds, executeStepWithRetry flakyStep "w" ⟨[], []⟩ = .ok ctx' 3 ds ∧
        (executeStep flakyStep "w" ⟨[], []⟩).2 = .ok ctx') :=
  ⟨(c2_retry_attempts alwaysFailRetryStep "wf" ⟨[], []⟩ 1 rfl rfl).1
      (fun _ c => ⟨.error "Permanent failure" none, c, rfl, rfl⟩),
   (c2_retry_attempts flakyStep "w" ⟨[], []⟩ 2 rfl rfl).2
      (fun n c hn => ⟨.error "Temporary failure" none, c, by
        show (if n < 2 then BodyOutcome.err (.error "Temporary failure" none) c
              else BodyOutcome.ok c) = _
        rw [if_pos hn], rfl⟩)
      (fun c => ⟨c, rfl⟩)⟩

/-! ## C4 -/

/-- A step with a 500ms timeout and retry limit 3 whose body never
settles before the timer. -/
def hangingStep : Step :=
  { id := "slow", run := fun _ _ => .hang, retry := some 3, timeout := some 500 }

/-- Claim C4: when a step has a configured timeout `t` and the body of
the attempt reached does not settle before the timer, the attempt
rejects with a `TimeoutError` carrying the step id, the workflow name
and `t`; the loop re-throws it at once — one single attempt is counted,
no backoff is awaited and no further attempt occurs, for every retry
budget and every loop position — and `executeStep` propagates the very
same `TimeoutError` unchanged after emitting `step:fail`. -/
theorem c4_timeout_never_retried (step : Step) (wf : String) (t : Nat)
    (ht : step.timeout = some t) :
    (∀ maxR ctx attempt fuel, step.run attempt ctx = .hang →
        retryGo step wf maxR ctx attempt fuel =
          .err (.timeoutError step.id wf t) (attempt + 1) [])
    ∧ (∀ ctx, step.condition = none → step.run 0 ctx = .hang →
        executeStep step wf ctx =
          ([.stepStart wf step.id, .stepFail wf step.id (.timeoutError step.id wf t)],
           .err (.timeoutError step.id wf t))) := by
  have hA : ∀ attempt ctx, step.run attempt ctx = .hang →
      runAttempt step wf attempt ctx = .err (.timeoutError step.id wf t) ctx := by
    intro attempt ctx h
    unfold runAttempt executeWithTimeout
    rw [ht]
    simp [h]
  have hloop : ∀ maxR ctx attempt fuel, step.run attempt ctx = .hang →
      retryGo step wf maxR ctx attempt fuel =
        .err (.timeoutError step.id wf t) (attempt + 1) [] := by
    intro maxR ctx attempt fuel hhang
    unfold retryGo
    rw [hA attempt ctx hhang]
    simp [JsError.isTimeoutInstance]
  refine ⟨hloop, ?_⟩
  intro ctx hcond hhang
  have hE : executeStepWithRetry step wf ctx =
      .err (.timeoutError step.id wf t) 1 [] := by
    unfold executeStepWithRetry
    exact hloop _ ctx 0 _ hhang
  unfold executeStep
  simp [hcond, hE, normalizeToError, wrapIfUntyped, JsError.isErrorInstance,
    JsError.isStepErrorInstance, JsError.isTimeoutInstance]

/-- Witness for C4: the concrete hanging step with timeout 500 and retry
limit 3 rejects with the `TimeoutError` after a single attempt. -/
theorem c4_timeout_never_retried_witness :
    retryGo hangingStep "w" 3 ⟨[], []⟩ 0 3 =
      .err (.timeoutError "slow" "w" 500) 1 []
    ∧ executeStep hangingStep "w" ⟨[], []⟩ =
      ([.stepStart "w" "slow", .stepFail "w" "slow" (.timeoutError "slow" "w" 500)],
       .err (.timeoutError "slow" "w" 500)) :=
  ⟨(c4_timeout_never_retried hangingStep "w" 500 rfl).1 3 ⟨[], []⟩ 0 3 rfl,
   (c4_timeout_never_retried hangingStep "w" 500 rfl).2 ⟨[], []⟩ rfl rfl⟩

/-! ## C7 -/

/-- Claim C7: a step whose condition evaluates to `false` emits exactly
one `step:skip` event and nothing else, returns normally with the
context unchanged — for every body, retry limit and timeout, so the body
is never invoked and the step is not a failure — and the workflow
continues with the next step. -/
theorem c7_falsy_condition_skips (step : Step) (wf : String) (ctx : WorkflowContext)
    (c : WorkflowContext → Except JsError Bool)
    (hc : step.condition = some c) (hfalse : c ctx = .ok false) :
    (∀ f r t, executeStep { step with run := f, retry := r, timeout := t } wf ctx =
        ([.stepSkip wf step.id], .ok ctx))
    ∧ (∀ rest, runSteps wf (step :: rest) ctx =
        (.stepSkip wf step.id :: (runSteps wf rest ctx).1, (runSteps wf rest ctx).2)) := by
  have hskip : ∀ f r t, executeStep { step with run := f, retry := r, timeout := t } wf ctx =
      ([.stepSkip wf step.id], .ok ctx) := by
    intro f r t
    unfold executeStep
    simp [hc, hfalse]
  refine ⟨hskip, ?_⟩
  intro rest
  have h0 : executeStep step wf ctx = ([.stepSkip wf step.id], .ok ctx) :=
    hskip step.run step.retry step.timeout
  rcases hrs : runSteps wf rest ctx with ⟨evs2, out2⟩
  simp [runSteps, h0, hrs]

/-- A step skipped by its constantly false condition. -/
def skippedStep : Step :=
  { id := "skip-me", run := fun _ c => .ok c,
    condition := some (fun _ => .ok false) }

/-- Witness for C7 at the concrete skipped step followed by a plain
step. -/
theorem c7_falsy_condition_skips_witness :
    executeStep skippedStep "w" ⟨[], []⟩ = ([.stepSkip "w" "skip-me"], .ok ⟨[], []⟩)
    ∧ runSteps "w" [skippedStep, rawFailStep] ⟨[], []⟩ =
        (.stepSkip "w" "skip-me" :: (runSteps "w" [rawFailStep] ⟨[], []⟩).1,
         (runSteps "w" [rawFailStep] ⟨[], []⟩).2) :=
  ⟨(c7_falsy_condition_skips skippedStep "w" ⟨[], []⟩ (fun _ => .ok false) rfl rfl).1
      skippedStep.run skippedStep.retry skippedStep.timeout,
   (c7_falsy_condition_skips skippedStep "w" ⟨[], []⟩ (fun _ => .ok false) rfl rfl).2
      [rawFailStep]⟩

/-! ## C10 -/

/-- Claim C10: when a step's condition itself throws, no `step:skip` and
no `step:start` is emitted; a single `step:fail` event carrying the
normalised error is emitted; the error is classified exactly as a body
failure (re-thrown unchanged when already a `StepError`/`TimeoutError`,
wrapped in a `StepError` otherwise); the retry policy is never applied —
the result holds for every body, retry limit and timeout — and the
workflow aborts: no later step contributes events or runs. -/
theorem c10_condition_error_fails_step (step : Step) (wf : String) (ctx : WorkflowContext)
    (c : WorkflowContext → Except JsError Bool) (e : JsError)
    (hc : step.condition = some c) (he : c ctx = .error e) :
    (∀ f r t, executeStep { step with run := f, retry := r, timeout := t } wf ctx =
        ([.stepFail wf step.id (normalizeToError e)], .err (wrapIfUntyped step.id wf e)))
    ∧ (∀ rest, runSteps wf (step :: rest) ctx =
        ([.stepFail wf step.id (normalizeToError e)], .err (wrapIfUntyped step.id wf e))) := by
  have hfail : ∀ f r t, executeStep { step with run := f, retry := r, timeout := t } wf ctx =
      ([.stepFail wf step.id (normalizeToError e)], .err (wrapIfUntyped step.id wf e)) := by
    intro f r t
    unfold executeStep
    simp [hc, he]
  refine ⟨hfail, ?_⟩
  intro rest
  have h0 : executeStep step wf ctx =
      ([.stepFail wf step.id (normalizeToError e)], .err (wrapIfUntyped step.id wf e)) :=
    hfail step.run step.retry step.timeout
  unfold runSteps
  rw [h0]

/-- A step whose condition throws a plain error. -/
def badConditionStep : Step :=
  { id := "c", run := fun _ c => .ok c,
    condition := some (fun _ => .error (.error "cond blew up" none)),
    retry := some 5 }

/-- Witness for C10 at a concrete condition-throwing step with a retry
budget: one `step:fail`, error wrapped in a `StepError`, workflow
aborted. -/
theorem c10_condition_error_fails_step_witness :
    executeStep badConditionStep "w" ⟨[], []⟩ =
      ([.stepFail "w" "c" (normalizeToError (.error "cond blew up" none))],
       .err (wrapIfUntyped "c" "w" (.error "cond blew up" none)))
    ∧ runSteps "w" [badConditionStep, rawFailStep] ⟨[], []⟩ =
      ([.stepFail "w" "c" (normalizeToError (.error "cond blew up" none))],
       .err (wrapIfUntyped "c" "w" (.error "cond blew up" none))) :=
  ⟨(c10_condition_error_fails_step badConditionStep "w" ⟨[], []⟩
      (fun _ => .error (.error "cond blew up" none)) (.error "cond blew up" none)
      rfl rfl).1 badConditionStep.run badConditionStep.retry badConditionStep.timeout,
   (c10_condition_error_fails_step badConditionStep "w" ⟨[], []⟩
      (fun _ => .error (.error "cond blew up" none)) (.error "cond blew up" none)
      rfl rfl).2 [rawFailStep]⟩

/-! ## C8 -/

/-- Lookup after assigning the same key. -/
lemma lookupEntry_setEntry_self (d : List (String × Value)) (k : String) (v : Value) :
    lookupEntry (setEntry d k v) k = some v := by
  induction d with
  | nil => simp [setEntry, lookupEntry]
  | cons p rest ih =>
    obtain ⟨k', v'⟩ := p
    by_cases h : k' = k
    · subst h
      simp [setEntry, lookupEntry]
    · simp [setEntry, lookupEntry, h, ih]

/-- Lookup after assigning a different key. -/
lemma lookupEntry_setEntry_other (d : List (String × Value)) (k k' : String)
    (v' : Value) (h : k' ≠ k) :
    lookupEntry (setEntry d k' v') k = lookupEntry d k := by
  induction d with
  | nil => simp [setEntry, lookupEntry, h]
  | cons p rest ih =>
    obtain ⟨k0, v0⟩ := p
    by_cases h0 : k0 = k'
    · subst h0
      simp [setEntry, lookupEntry, h]
    · by_cases h1 : k0 = k
      · subst h1
        simp [setEntry, lookupEntry, h0]
      · simp [setEntry, lookupEntry, h0, h1, ih]

/-- A `set` call with any key other than `k` — including a failing `set`
with an empty key — leaves the value stored at `k` unchanged. -/
lemma get_after_set_other (ctx : WorkflowContext) (k k' : String) (v' : Value)
    (h : k' ≠ k) :
    ((ctx.set k' v').2).get k = ctx.get k := by
  unfold WorkflowContext.set WorkflowContext.get
  by_cases h0 : k' = ""
  · simp [h0]
  · simp [h0, lookupEntry_setEntry_other ctx.data k k' v' h]

/-- Fold a list of `set` calls over a context, as a sequence of steps
writing to the shared store would. -/
def applySets (ctx : WorkflowContext) (ops : List (String × Value)) : WorkflowContext :=
  ops.foldl (fun c p => (c.set p.1 p.2).2) ctx

/-- A key none of the `set` calls touches keeps its (absent) value. -/
lemma get_applySets_not_mem (ops : List (String × Value)) :
    ∀ ctx k, k ∉ ops.map Prod.fst → (applySets ctx ops).get k = ctx.get k := by
  induction ops with
  | nil =>
    intro ctx k _
    rfl
  | cons p rest ih =>
    intro ctx k h
    rw [List.map_cons, List.mem_cons] at h
    push_neg at h
    show (applySets ((ctx.set p.1 p.2).2) rest).get k = ctx.get k
    rw [ih _ k h.2]
    exact get_after_set_other ctx k p.1 p.2 (fun hh => h.1 hh.symm)

/-- Claim C8: `set` with a non-empty key succeeds and a later `get` of
the same key (with any writes to other keys in between) returns the
stored value; `get` of a key never set returns the absent value (and
`get` is a total function, so it never raises); `set` with an empty key
fails with the validation error and leaves the stored data unchanged. -/
theorem c8_context_semantics :
    (∀ ctx k v, k ≠ "" →
        (WorkflowContext.set ctx k v).1 = .ok ()
        ∧ ((WorkflowContext.set ctx k v).2).get k = some v)
    ∧ (∀ ctx k v k' v', k ≠ "" → k' ≠ k →
        ((((WorkflowContext.set ctx k v).2).set k' v').2).get k = some v)
    ∧ (∀ ops k, k ∉ ops.map Prod.fst →
        (applySets (mkWorkflowContext [] []) ops).get k = none)
    ∧ (∀ ctx v,
        (WorkflowContext.set ctx "" v).1 =
          .error (.error "Context key must be a non-empty string" none)
        ∧ (WorkflowContext.set ctx "" v).2 = ctx) := by
  have hset : ∀ (ctx : WorkflowContext) k v, k ≠ "" →
      (WorkflowContext.set ctx k v).1 = .ok ()
      ∧ ((WorkflowContext.set ctx k v).2).get k = some v := by
    intro ctx k v hk
    unfold WorkflowContext.set WorkflowContext.get
    simp [hk, lookupEntry_setEntry_self]
  refine ⟨hset, ?_, ?_, ?_⟩
  · intro ctx k v k' v' hk hne
    rw [get_after_set_other _ k k' v' hne]
    exact (hset ctx k v hk).2
  · intro ops k h
    rw [get_applySets_not_mem ops _ k h]
    rfl
  · intro ctx v
    exact ⟨rfl, rfl⟩

/-- Witness for C8 at concrete keys and values. -/
theorem c8_context_semantics_witness :
    ((WorkflowContext.set ⟨[], []⟩ "k" (.num 1)).1 = .ok ()
      ∧ ((WorkflowContext.set ⟨[], []⟩ "k" (.num 1)).2).get "k" = some (.num 1))
    ∧ ((((WorkflowContext.set ⟨[], []⟩ "k" (.num 1)).2).set "other" (.str "x")).2).get "k"
        = some (.num 1)
    ∧ (applySets (mkWorkflowContext [] []) [("a", .num 2), ("b", .null)]).get "k" = none
    ∧ ((WorkflowContext.set ⟨[("a", Value.num 2)], []⟩ "" (.str "v")).1 =
        .error (.error "Context key must be a non-empty string" none)
      ∧ (WorkflowContext.set ⟨[("a", Value.num 2)], []⟩ "" (.str "v")).2 =
        ⟨[("a", Value.num 2)], []⟩) :=
  ⟨c8_context_semantics.1 ⟨[], []⟩ "k" (.num 1) (by decide),
   c8_context_semantics.2.1 ⟨[], []⟩ "k" (.num 1) "other" (.str "x")
     (by decide) (by decide),
   c8_context_semantics.2.2.1 [("a", .num 2), ("b", .null)] "k" (by decide),
   c8_context_semantics.2.2.2 ⟨[("a", Value.num 2)], []⟩ (.str "v")⟩

/-! ## C9 -/

/-- Recording a delay prepends it to the waited list. -/
lemma waited_consDelay (d : Nat) (r : RetryResult) :
    (r.consDelay d).waited = d :: r.waited := by
  cases r <;> rfl

/-- The delays awaited by the loop from `attempt` on are pairwise
non-decreasing and bounded below by the delay of the current attempt. -/
lemma retryGo_waited_sorted (step : Step) (wf : String) (maxR : Nat) :
    ∀ fuel attempt ctx,
      ((retryGo step wf maxR ctx attempt fuel).waited).Pairwise (· ≤ ·)
      ∧ ∀ d ∈ (retryGo step wf maxR ctx attempt fuel).waited, backoffDelay attempt ≤ d := by
  intro fuel
  induction fuel with
  | zero =>
    intro attempt ctx
    unfold retryGo
    rcases runAttempt step wf attempt ctx with c | ⟨e, c⟩ | _
    · simp [RetryResult.waited]
    · dsimp only
      split_ifs <;> simp [RetryResult.waited]
    · simp [RetryResult.waited]
  | succ f ih =>
    intro attempt ctx
    unfold retryGo
    rcases runAttempt step wf attempt ctx with c | ⟨e, c⟩ | _
    · simp [RetryResult.waited]
    · dsimp only
      split_ifs with h1 h2
      · simp [RetryResult.waited]
      · simp [RetryResult.waited]
      · obtain ⟨hp, hlb⟩ := ih (attempt + 1) c
        rw [waited_consDelay]
        have hmono : backoffDelay attempt ≤ backoffDelay (attempt + 1) := by
          unfold backoffDelay
          omega
        constructor
        · exact List.Pairwise.cons (fun d hd => le_trans hmono (hlb d hd)) hp
        · intro d hd
          rcases List.mem_cons.mp hd with h | h
          · omega
          · exact le_trans hmono (hlb d h)
    · simp [RetryResult.waited]

/-- Claim C9: the backoff delay is a monotonically non-decreasing
function of the attempt index, and consequently the sequence of delays
awaited in any run of the attempt loop is pairwise non-decreasing. -/
theorem c9_backoff_monotone :
    (∀ i j, i ≤ j → backoffDelay i ≤ backoffDelay j)
    ∧ (∀ step wf ctx,
        ((executeStepWithRetry step wf ctx).waited).Pairwise (· ≤ ·)) := by
  constructor
  · intro i j h
    unfold backoffDelay
    omega
  · intro step wf ctx
    unfold executeStepWithRetry
    exact (retryGo_waited_sorted step wf _ _ 0 ctx).1

/-- Witness for C9: concrete delay comparison and the delays of the
concrete flaky run, `[1000, 2000]`, are pairwise non-decreasing. -/
theorem c9_backoff_monotone_witness :
    backoffDelay 0 ≤ backoffDelay 3
    ∧ ((executeStepWithRetry flakyStep "w" ⟨[], []⟩).waited).Pairwise (· ≤ ·) :=
  ⟨c9_backoff_monotone.1 0 3 (by omega),
   c9_backoff_monotone.2 flakyStep "w" ⟨[], []⟩⟩

/-! ## Trace predicates and inversion lemmas for C5 and C6 -/

/-- The condition gate lets the step run: no condition, or the condition
evaluates to `true`. -/
def condPasses (step : Step) (ctx : WorkflowContext) : Prop :=
  match step.condition with
  | none => True
  | some c => c ctx = .ok true

/-- Inverting the condition evaluation of `executeStep` when it yields
`false`. -/
lemma condEval_false_inv (s : Step) (ctx : WorkflowContext)
    (h : (match s.condition with
          | some c => c ctx
          | none => Except.ok true) = Except.ok false) :
    ∃ c, s.condition = some c ∧ c ctx = .ok false := by
  rcases hc : s.condition with _ | c
  · rw [hc] at h
    simp at h
  · rw [hc] at h
    exact ⟨c, rfl, h⟩

/-- Inverting the condition evaluation of `executeStep` when it yields
`true`. -/
lemma condEval_true_inv (s : Step) (ctx : WorkflowContext)
    (h : (match s.condition with
          | some c => c ctx
          | none => Except.ok true) = Except.ok true) :
    condPasses s ctx := by
  unfold condPasses
  rcases hc : s.condition with _ | c
  · trivial
  · rw [hc] at h
    exact h

/-- Inversion of a normally returning step lifecycle: either the
condition was falsy and exactly a `step:skip` was emitted with the
context untouched, or the condition passed, the attempt loop fulfilled,
and exactly `step:start` then `step:success` were emitted. -/
lemma executeStep_ok_inversion (s : Step) (wf : String) (ctx : WorkflowContext)
    (evs : List Event) (ctx' : WorkflowContext)
    (h : executeStep s wf ctx = (evs, .ok ctx')) :
    (∃ c, s.condition = some c ∧ c ctx = .ok false ∧
      evs = [.stepSkip wf s.id] ∧ ctx' = ctx)
    ∨ (condPasses s ctx ∧ (∃ a ds, executeStepWithRetry s wf ctx = .ok ctx' a ds) ∧
      evs = [.stepStart wf s.id, .stepSuccess wf s.id]) := by
  unfold executeStep at h
  split at h
  · simp at h
  next shouldRun heq =>
    split at h
    next hsr =>
      subst hsr
      obtain ⟨c, hc, hf⟩ := condEval_false_inv s ctx heq
      simp only [Prod.mk.injEq] at h
      obtain ⟨h1, h2⟩ := h
      cases h2
      exact Or.inl ⟨c, hc, hf, h1.symm, rfl⟩
    next hsr =>
      have hsr' : shouldRun = true := by
        cases shouldRun
        · exact absurd rfl hsr
        · rfl
      subst hsr'
      split at h
      · next c2 a ds hR =>
          simp only [Prod.mk.injEq] at h
          obtain ⟨h1, h2⟩ := h
          cases h2
          exact Or.inr ⟨condEval_true_inv s ctx heq, ⟨a, ds, hR⟩, h1.symm⟩
      · simp at h
      · simp at h

/-- Inversion of a throwing step lifecycle: the propagated error is the
classification of some raw error `e0`, and the emitted events are either
a single `step:fail` (the condition threw) or `step:start` followed by
`step:fail` (the attempt loop ended in `e0`). -/
lemma executeStep_err_inversion (s : Step) (wf : String) (ctx : WorkflowContext)
    (evs : List Event) (e : JsError)
    (h : executeStep s wf ctx = (evs, .err e)) :
    ∃ e0, e = wrapIfUntyped s.id wf e0 ∧
      (evs = [.stepFail wf s.id (normalizeToError e0)]
       ∨ evs = [.stepStart wf s.id, .stepFail wf s.id (normalizeToError e0)]) := by
  unfold executeStep at h
  split at h
  next e0 heq =>
    simp only [Prod.mk.injEq] at h
    obtain ⟨h1, h2⟩ := h
    cases h2
    exact ⟨e0, rfl, Or.inl h1.symm⟩
  next shouldRun heq =>
    split at h
    · simp at h
    · split at h
      · simp at h
      · next e0 a ds hR =>
          simp only [Prod.mk.injEq] at h
          obtain ⟨h1, h2⟩ := h
          cases h2
          exact ⟨e0, rfl, Or.inr h1.symm⟩
      · simp at h

/-- Claim C5's per-step event shape: walking the steps in declaration
order from the initial context, each step contributes either
`step:start` followed immediately by `step:success` (its condition
passed and its attempt loop fulfilled, handing the possibly updated
context to the next step) or a single `step:skip` (its condition was
falsy), and nothing else. -/
def stepSeqOk (wf : String) : List Step → WorkflowContext → List Event → Prop
  | [], _, evs => evs = []
  | s :: rest, ctx, evs =>
      (∃ c tail, s.condition = some c ∧ c ctx = .ok false ∧
        evs = .stepSkip wf s.id :: tail ∧ stepSeqOk wf rest ctx tail)
      ∨ (∃ ctx' a ds tail, condPasses s ctx ∧
          executeStepWithRetry s wf ctx = .ok ctx' a ds ∧
          evs = .stepStart wf s.id :: .stepSuccess wf s.id :: tail ∧
          stepSeqOk wf rest ctx' tail)

/-- A normally completing step iteration produces a C5 trace. -/
lemma runSteps_ok_stepSeq (wf : String) :
    ∀ (steps : List Step) (ctx : WorkflowContext) (evs : List Event)
      (ctx' : WorkflowContext),
      runSteps wf steps ctx = (evs, .ok ctx') → stepSeqOk wf steps ctx evs := by
  intro steps
  induction steps with
  | nil =>
    intro ctx evs ctx' h
    unfold runSteps at h
    simp only [Prod.mk.injEq] at h
    exact h.1.symm
  | cons s rest ih =>
    intro ctx evs ctx' h
    unfold runSteps at h
    rcases hE : executeStep s wf ctx with ⟨evs1, out1⟩
    rw [hE] at h
    cases out1 with
    | ok c =>
      dsimp only at h
      rcases hR : runSteps wf rest c with ⟨evs2, out2⟩
      rw [hR] at h
      dsimp only at h
      simp only [Prod.mk.injEq] at h
      obtain ⟨rfl, h2⟩ := h
      cases h2
      rcases executeStep_ok_inversion s wf ctx evs1 c hE with
        ⟨cnd, hc, hf, hevs, hctx⟩ | ⟨hpass, ⟨a, ds, hloop⟩, hevs⟩
      · subst hevs
        rw [hctx] at hR
        exact Or.inl ⟨cnd, evs2, hc, hf, rfl, ih ctx evs2 ctx' hR⟩
      · subst hevs
        exact Or.inr ⟨c, a, ds, evs2, hpass, hloop, rfl, ih c evs2 ctx' hR⟩
    | err e =>
      dsimp only at h
      simp at h
    | hang =>
      dsimp only at h
      simp at h

/-- Claim C5: a run that resolves emits exactly `workflow:start`, then
per step in declaration order either `step:start` followed by
`step:success` (the step ran) or a single `step:skip` (its condition was
falsy), then `workflow:success`, and nothing else. -/
theorem c5_success_event_sequence (w : Workflow) (init : List (String × Value))
    (env : List (String × String))
    (h : (WorkflowEngine.run w init env).2 = .success) :
    ∃ mid, (WorkflowEngine.run w init env).1 =
        .workflowStart w.name :: mid ++ [.workflowSuccess w.name]
      ∧ stepSeqOk w.name w.steps (mkWorkflowContext init env) mid := by
  unfold WorkflowEngine.run at h ⊢
  rcases hR : runSteps w.name w.steps (mkWorkflowContext init env) with ⟨evs, out⟩
  rw [hR] at h
  cases out with
  | ok c => exact ⟨evs, rfl, runSteps_ok_stepSeq w.name w.steps _ evs c hR⟩
  | err e =>
    dsimp only at h
    exact RunResult.noConfusion h
  | hang =>
    dsimp only at h
    exact RunResult.noConfusion h

/-- A step that fulfils and touches nothing. -/
def plainStep : Step := { id := "p", run := fun _ c => .ok c }

/-- Witness for C5: a two-step workflow (one running step, one skipped
step) resolves and its trace is `workflow:start`, `step:start`,
`step:success`, `step:skip`, `workflow:success`. -/
theorem c5_success_event_sequence_witness :
    ∃ mid, (WorkflowEngine.run ⟨"w", [plainStep, skippedStep]⟩ [] []).1 =
        .workflowStart "w" :: mid ++ [.workflowSuccess "w"]
      ∧ stepSeqOk "w" [plainStep, skippedStep] (mkWorkflowContext [] []) mid :=
  c5_success_event_sequence ⟨"w", [plainStep, skippedStep]⟩ [] [] rfl

/-! ## C6 -/

/-- Claim C6's failing-trace shape: some step in declaration order fails
after a (possibly empty) prefix of completed steps; every completed
prefix step contributes its usual `step:start`/`step:success` or
`step:skip` events; the failing step contributes `step:fail` — preceded
by its `step:start` when the failure came from the attempt loop, alone
when its condition threw — carrying the normalised raw error whose
classification is the propagated error; and the trace ends there: no
event of any later step follows. -/
def failSeqOk (wf : String) : List Step → WorkflowContext → JsError →
    List Event → Prop
  | [], _, _, _ => False
  | s :: rest, ctx, e, evs =>
      (∃ e0, e = wrapIfUntyped s.id wf e0 ∧
        (evs = [.stepFail wf s.id (normalizeToError e0)]
         ∨ evs = [.stepStart wf s.id, .stepFail wf s.id (normalizeToError e0)]))
      ∨ (∃ c tail, s.condition = some c ∧ c ctx = .ok false ∧
          evs = .stepSkip wf s.id :: tail ∧ failSeqOk wf rest ctx e tail)
      ∨ (∃ ctx' a ds tail, condPasses s ctx ∧
          executeStepWithRetry s wf ctx = .ok ctx' a ds ∧
          evs = .stepStart wf s.id :: .stepSuccess wf s.id :: tail ∧
          failSeqOk wf rest ctx' e tail)

/-- A step iteration that throws produces a C6 trace. -/
lemma runSteps_err_failSeq (wf : String) :
    ∀ (steps : List Step) (ctx : WorkflowContext) (evs : List Event) (e : JsError),
      runSteps wf steps ctx = (evs, .err e) → failSeqOk wf steps ctx e evs := by
  intro steps
  induction steps with
  | nil =>
    intro ctx evs e h
    unfold runSteps at h
    simp at h
  | cons s rest ih =>
    intro ctx evs e h
    unfold runSteps at h
    rcases hE : executeStep s wf ctx with ⟨evs1, out1⟩
    rw [hE] at h
    cases out1 with
    | ok c =>
      dsimp only at h
      rcases hR : runSteps wf rest c with ⟨evs2, out2⟩
      rw [hR] at h
      dsimp only at h
      simp only [Prod.mk.injEq] at h
      obtain ⟨rfl, h2⟩ := h
      cases h2
      rcases executeStep_ok_inversion s wf ctx evs1 c hE with
        ⟨cnd, hc, hf, hevs, hctx⟩ | ⟨hpass, ⟨a, ds, hloop⟩, hevs⟩
      · subst hevs
        rw [hctx] at hR
        exact Or.inr (Or.inl ⟨cnd, evs2, hc, hf, rfl, ih ctx evs2 e hR⟩)
      · subst hevs
        exact Or.inr (Or.inr ⟨c, a, ds, evs2, hpass, hloop, rfl, ih c evs2 e hR⟩)
    | err e1 =>
      dsimp only at h
      simp only [Prod.mk.injEq] at h
      obtain ⟨rfl, h2⟩ := h
      cases h2
      obtain ⟨e0, he, hevs⟩ := executeStep_err_inversion s wf ctx evs1 e hE
      exact Or.inl ⟨e0, he, hevs⟩
    | hang =>
      dsimp only at h
      simp at h

/-- Claim C6: a run that rejects emits `workflow:start`, then the events
of the completed prefix steps, then `step:fail` for the failing step,
then `workflow:fail` — with no event of any later step — and the very
error that came out of the failing step lifecycle is the one `run`
rejects with. -/
theorem c6_failure_event_sequence (w : Workflow) (init : List (String × Value))
    (env : List (String × String)) (e : JsError)
    (h : (WorkflowEngine.run w init env).2 = .failure e) :
    ∃ mid, (WorkflowEngine.run w init env).1 =
        .workflowStart w.name :: mid ++ [.workflowFail w.name (normalizeToError e)]
      ∧ failSeqOk w.name w.steps (mkWorkflowContext init env) e mid := by
  unfold WorkflowEngine.run at h ⊢
  rcases hR : runSteps w.name w.steps (mkWorkflowContext init env) with ⟨evs, out⟩
  rw [hR] at h
  cases out with
  | ok c =>
    dsimp only at h
    exact RunResult.noConfusion h
  | err e1 =>
    dsimp only at h
    simp only [RunResult.failure.injEq] at h
    subst h
    exact ⟨evs, rfl, runSteps_err_failSeq w.name w.steps _ evs e1 hR⟩
  | hang =>
    dsimp only at h
    exact RunResult.noConfusion h

/-- Witness for C6: a three-step workflow whose second step always
throws rejects, emitting the first step's events, then `step:fail`,
then `workflow:fail`, and nothing for the third step. -/
theorem c6_failure_event_sequence_witness :
    ∃ mid, (WorkflowEngine.run ⟨"w", [plainStep, rawFailStep, skippedStep]⟩ [] []).1 =
        .workflowStart "w" :: mid
          ++ [.workflowFail "w"
                (normalizeToError (.stepError "s1" "w" "boom" (some (.error "boom" none))))]
      ∧ failSeqOk "w" [plainStep, rawFailStep, skippedStep] (mkWorkflowContext [] [])
          (.stepError "s1" "w" "boom" (some (.error "boom" none))) mid :=
  c6_failure_event_sequence ⟨"w", [plainStep, rawFailStep, skippedStep]⟩ [] []
    (.stepError "s1" "w" "boom" (some (.error "boom" none))) rfl
